import Mathlib

/-!
# Verification of the stock arbitrage bot core

A shallow embedding of the core of the Stock-arbitrage-bot repository,
together with theorems settling the testable properties of its
specification.

Embedding conventions:
* Python floats are embedded as exact rationals; the properties at stake
  (comparisons, signs, averages) are exact in the claims.
* Python dicts are embedded as association lists in insertion order with
  unique keys; dict lookup is `List.lookup`, dict assignment is `alistSet`
  (update in place if the key exists, append otherwise).
* Side effects that do not bear on the claims (logging, timestamps) are
  dropped; a raised exception that escapes a function is modelled as a
  `none` result alongside the mutated object state.
* Python set iteration order is unspecified; the detector enumerates the
  symbol intersection in first-source key order, one canonical choice of
  that unspecified order.
-/

/- The Batteries rational arithmetic primitives are shipped irreducible,
which blocks decide on concrete rational computations; restore the default
reducibility for this development. -/
attribute [local semireducible] Rat.add Rat.mul Rat.inv Rat.sub

namespace StockArb

/-- A price snapshot: mapping from ticker symbol to price, as produced by
one source at one cycle (a Python dict, embedded as an association list in
insertion order with unique keys). -/
abbrev Snapshot := List (String × ℚ)

/-- Python round to 4 decimal places uses banker rounding (ties to even);
this is `roundHalfEven` applied at scale 10000.  Ties only arise at dyadic
rationals and never at the values of the claims. -/
def roundHalfEven (x : ℚ) : ℤ :=
  let f := ⌊x⌋
  let frac := x - (f : ℚ)
  if frac < 1/2 then f
  else if 1/2 < frac then f + 1
  else if f % 2 = 0 then f else f + 1

/-- Embedding of the Python expression round(x, 4). -/
def round4 (x : ℚ) : ℚ := ((roundHalfEven (x * 10000) : ℤ) : ℚ) / 10000

/-- Embedding of validate_price_data (arbitrage_logic.py lines 14-51): a
snapshot is valid when it is a non-empty dict and every price is positive.
The dynamic type checks of the Python function (dict, str keys, numeric
prices) hold by construction in the typed embedding. -/
def validate_price_data (prices : Snapshot) : Bool :=
  !prices.isEmpty && prices.all fun p => decide (0 < p.2)

/-- One arbitrage opportunity record as built by detect_arbitrage
(arbitrage_logic.py lines 118-131).  The timestamp field
(datetime.now().isoformat()) is dropped: it is wall-clock input with no
bearing on any claim. -/
structure Opportunity where
  ticker : String
  price_source_1 : ℚ
  price_source_2 : ℚ
  difference_abs : ℚ
  difference_pct : ℚ
  estimated_profit : ℚ
  buy_source : String
  sell_source : String
  buy_price : ℚ
  sell_price : ℚ
  profit_margin : ℚ
deriving Repr, DecidableEq

/-- The body of the per-ticker loop of detect_arbitrage (arbitrage_logic.py
lines 95-138): look up the two prices of a common ticker, skip when the
average is zero, and emit an opportunity exactly when the relative
difference exceeds the threshold.  The per-ticker try/except cannot fire in
the embedding (lookups of common tickers always succeed). -/
def processTicker (prices1 prices2 : Snapshot) (threshold : ℚ) (ticker : String) :
    Option Opportunity :=
  let p1 := (List.lookup ticker prices1).getD 0
  let p2 := (List.lookup ticker prices2).getD 0
  let diff := |p1 - p2|
  let avg := (p1 + p2) / 2
  if avg = 0 then none
  else
    let diff_pct := diff / avg
    if diff_pct > threshold then
      let buy_price := min p1 p2
      let sell_price := max p1 p2
      some {
        ticker := ticker
        price_source_1 := round4 p1
        price_source_2 := round4 p2
        difference_abs := round4 diff
        difference_pct := round4 (diff_pct * 100)
        estimated_profit := round4 diff
        buy_source := if p1 < p2 then "Source 1" else "Source 2"
        sell_source := if p1 < p2 then "Source 2" else "Source 1"
        buy_price := round4 buy_price
        sell_price := round4 sell_price
        profit_margin := round4 ((sell_price - buy_price) / buy_price * 100) }
    else none

/-- The common tickers of the two snapshots, set(prices1) & set(prices2) at
arbitrage_logic.py line 86, enumerated in first-snapshot key order (Python
set iteration order is unspecified; the spec declares the resulting
ordering unspecified as well). -/
def commonTickers (prices1 prices2 : Snapshot) : List String :=
  ((prices1.map Prod.fst).filter fun t => (List.lookup t prices2).isSome).dedup

/-- Embedding of detect_arbitrage (arbitrage_logic.py lines 53-144):
validate both snapshots and the threshold (numeric and strictly positive --
the code has no upper bound check), intersect the key sets, and emit one
opportunity per qualifying common ticker. -/
def detect_arbitrage (prices1 prices2 : Snapshot) (threshold : ℚ) :
    List Opportunity :=
  if !validate_price_data prices1 then []
  else if !validate_price_data prices2 then []
  else if threshold ≤ 0 then []
  else if (commonTickers prices1 prices2).isEmpty then []
  else (commonTickers prices1 prices2).filterMap (processTicker prices1 prices2 threshold)

/-- The label-swapping view of an opportunity used to state the symmetry of
detect_arbitrage in its two snapshot arguments. -/
def swapSourceView (o : Opportunity) : Opportunity :=
  { o with
    price_source_1 := o.price_source_2
    price_source_2 := o.price_source_1
    buy_source := o.sell_source
    sell_source := o.buy_source }

/-! ## RateLimiter (broker_apis.py) -/

namespace RateLimiter

/-- Embedding of RateLimiter.acquire (broker_apis.py lines 36-53) as a pure
state transformer.  maxCalls is self.max_calls, calls the recorded call
timestamps, now the current wall clock (seconds).  The result is the slept
duration paired with the new self.calls, or none when the Python code would
raise (min of an empty list, reachable only with max_calls = 0). -/
def acquire (maxCalls : ℕ) (calls : List ℚ) (now : ℚ) : Option (ℚ × List ℚ) :=
  let retained := calls.filter fun c => decide (now - c < 60)
  if maxCalls ≤ retained.length then
    match retained.min? with
    | none => none
    | some oldest =>
      let wait := 60 - (now - oldest)
      some ((if 0 < wait then wait else 0), retained ++ [now])
  else
    some (0, retained ++ [now])

end RateLimiter

/-! ## RealDataStream (real_data_stream.py) -/

/-- The mutable attributes of RealDataStream that get_real_time_prices
reads and writes: config simulation_mode, the api dict (keys only; the
client objects carry no state relevant to the claims), last_prices and
error_counts. -/
structure StreamState where
  simulationMode : Bool
  apis : List String
  lastPrices : List (String × Snapshot)
  errorCounts : List (String × ℕ)
deriving Repr, DecidableEq

/-- self.max_errors_per_broker (real_data_stream.py line 28). -/
def max_errors_per_broker : ℕ := 5

/-- Python dict assignment d[k] = v: overwrite in place when the key
exists, append otherwise. -/
def alistSet {α : Type} : List (String × α) → String → α → List (String × α)
  | [], k, v => [(k, v)]
  | (k2, v2) :: rest, k, v =>
      if k2 = k then (k, v) :: rest else (k2, v2) :: alistSet rest k v

/-- Python dict base.update(extra). -/
def alistUpdate {α : Type} (base extra : List (String × α)) : List (String × α) :=
  extra.foldl (fun acc p => alistSet acc p.1 p.2) base

/-- The body of the per-API loop of get_real_time_prices
(real_data_stream.py lines 89-120) for one source.  results name is the
outcome of api.get_multiple_prices(symbols) (none = the call raised); acc
is the accumulated all_prices.  Returns the new all_prices, the new object
state, and whether self.apis.pop(name) ran (too many errors). -/
def processSource (st : StreamState) (results : String → Option Snapshot)
    (acc : List (String × Snapshot)) (name : String) :
    List (String × Snapshot) × StreamState × Bool :=
  let apiPrices := match results name with
    | none => []
    | some prices => prices.filter fun p => decide (0 < p.2)
  if apiPrices.isEmpty then
    -- except branch: the fetch raised, or "No valid prices returned"
    let newCount := (List.lookup name st.errorCounts).getD 0 + 1
    let st1 := { st with errorCounts := alistSet st.errorCounts name newCount }
    let acc1 := match List.lookup name st1.lastPrices with
      | some cached => alistSet acc name cached
      | none => acc
    if max_errors_per_broker ≤ newCount then
      (acc1, { st1 with apis := st1.apis.erase name }, true)
    else
      (acc1, st1, false)
  else
    (alistSet acc name apiPrices,
     { st with
        lastPrices := alistSet st.lastPrices name apiPrices,
        errorCounts := alistSet st.errorCounts name 0 },
     false)

/-- The for-loop of get_real_time_prices over the live self.apis dict.
CPython raises RuntimeError (dictionary changed size during iteration) at
the first iterator advance after self.apis.pop(name), even when the popped
entry was the last one, because the dict iterator checks the size before
checking exhaustion.  The raise is modelled by a none price mapping; the
attribute mutations made before the raise persist in the returned state. -/
def pollLoop (results : String → Option Snapshot) :
    List String → StreamState → List (String × Snapshot) →
    Option (List (String × Snapshot)) × StreamState
  | [], st, acc => (some acc, st)
  | name :: rest, st, acc =>
      match processSource st results acc name with
      | (acc1, st1, popped) =>
          if popped then (none, st1) else pollLoop results rest st1 acc1

/-- Embedding of RealDataStream.get_real_time_prices (real_data_stream.py
lines 81-128).  sim is the output of _get_simulated_prices (a random-walk
simulator, supplied as a parameter).  The first component is the returned
price mapping, or none when the call raises. -/
def getRealTimePrices (st : StreamState) (results : String → Option Snapshot)
    (sim : List (String × Snapshot)) :
    Option (List (String × Snapshot)) × StreamState :=
  if st.simulationMode then (some sim, st)
  else
    match pollLoop results st.apis st [] with
    | (none, st1) => (none, st1)
    | (some acc, st1) =>
        if acc.length < 2 then (some (alistUpdate acc sim), st1)
        else (some acc, st1)

/-- The per-source failure condition of one polling call: the fetch raised
or no positive-price entries survived the conversion filter. -/
def failsFor (results : String → Option Snapshot) (name : String) : Bool :=
  match results name with
  | none => true
  | some prices => (prices.filter fun p => decide (0 < p.2)).isEmpty

/-- Whether processing source m in state st would pop it from the api dict:
its fetch fails and its failure count reaches the limit. -/
def popsNow (st : StreamState) (results : String → Option Snapshot)
    (m : String) : Bool :=
  failsFor results m &&
    decide (max_errors_per_broker ≤ (List.lookup m st.errorCounts).getD 0 + 1)

/-! ## calculate_portfolio_metrics (arbitrage_logic.py) -/

/-- A Python opportunity dict as consumed by calculate_portfolio_metrics:
every field is read with dict .get, so every field is optional. -/
structure OppRecord where
  estimated_profit : Option ℚ := none
  profit_margin : Option ℚ := none
  ticker : Option String := none
deriving Repr, DecidableEq

/-- Python truthiness of opp.get("profit_margin"): a missing key (None)
and the number 0 are falsy. -/
def truthyQ : Option ℚ → Bool
  | none => false
  | some m => decide (m ≠ 0)

/-- Python max(l, key=key): the first element with maximal key, none for an
empty list (where Python would raise; calculate_portfolio_metrics only
calls it on non-empty lists). -/
def pyMaxBy {α β : Type} [LinearOrder β] (key : α → β) : List α → Option α
  | [] => none
  | x :: xs => some (xs.foldl (fun best y => if key best < key y then y else best) x)

/-- The ticker_counts dict of calculate_portfolio_metrics (lines 174-178),
built in first-seen order; a missing or empty ticker is skipped (Python
truthiness of opp.get("ticker")). -/
def tickerCounts (opps : List OppRecord) : List (String × ℕ) :=
  opps.foldl
    (fun counts o =>
      match o.ticker with
      | some t =>
          if t.isEmpty then counts
          else alistSet counts t ((List.lookup t counts).getD 0 + 1)
      | none => counts)
    []

/-- The result dict of calculate_portfolio_metrics.  The empty-input branch
returns a dict without the most_active_ticker_count key, modelled as
none. -/
structure PortfolioMetrics where
  total_opportunities : ℕ
  total_estimated_profit : ℚ
  average_profit_margin : ℚ
  max_profit_opportunity : Option OppRecord
  most_active_ticker : Option String
  most_active_ticker_count : Option ℕ
deriving Repr, DecidableEq

/-- Embedding of calculate_portfolio_metrics (arbitrage_logic.py lines
146-193).  The outer try/except cannot fire in the typed embedding. -/
def calculate_portfolio_metrics (opps : List OppRecord) : PortfolioMetrics :=
  if opps.isEmpty then
    { total_opportunities := 0
      total_estimated_profit := 0
      average_profit_margin := 0
      max_profit_opportunity := none
      most_active_ticker := none
      most_active_ticker_count := none }
  else
    let total_profit := (opps.map fun o => o.estimated_profit.getD 0).sum
    let profit_margins :=
      (opps.filter fun o => truthyQ o.profit_margin).map fun o => o.profit_margin.getD 0
    let avg := if profit_margins.isEmpty then 0
      else profit_margins.sum / (profit_margins.length : ℚ)
    let most_active := pyMaxBy (fun p : String × ℕ => p.2) (tickerCounts opps)
    { total_opportunities := opps.length
      total_estimated_profit := round4 total_profit
      average_profit_margin := round4 avg
      max_profit_opportunity := pyMaxBy (fun o => o.estimated_profit.getD 0) opps
      most_active_ticker := most_active.map Prod.fst
      most_active_ticker_count := some ((most_active.map Prod.snd).getD 0) }

/-! ## Opportunity log persistence (real_simulator.py) -/

/-- The on-disk opportunity log: main is the committed file content (none
when the file is absent, or after a corrupt file was renamed aside to a
backup), temp the .tmp staging file.  JSON (de)serialization is treated as
the identity on records, which stay opaque. -/
structure LogFS (α : Type) where
  main : Option (List α)
  temp : Option (List α)
deriving Repr, DecidableEq

/-- Config.MAX_OPPORTUNITIES_IN_FILE (config.py line 29). -/
def maxOpportunitiesInFile : ℕ := 10000

/-- The Python slice l[-n:]: the suffix holding the most recent n entries
(the whole list when it is shorter). -/
def lastN {α : Type} (n : ℕ) (l : List α) : List α := l.drop (l.length - n)

/-- Writing the .tmp staging file (real_simulator.py lines 263-265); the
committed log is untouched by this step. -/
def writeTemp {α : Type} (fs : LogFS α) (data : List α) : LogFS α :=
  { fs with temp := some data }

/-- os.rename(temp_file, opportunity_log) (real_simulator.py line 268):
the staged content becomes the committed log in one step. -/
def atomicRename {α : Type} (fs : LogFS α) : LogFS α :=
  { main := fs.temp, temp := none }

/-- Embedding of RealArbitrageSimulator._save_opportunities
(real_simulator.py lines 214-273): load the existing log (absent and
corrupt-then-backed-up both load as empty), append the new batch, keep only
the most recent cap-sized suffix when over the cap, and commit by
write-temp-then-atomic-rename.  An empty batch returns before touching the
file. -/
def saveOpportunities {α : Type} (fs : LogFS α) (new : List α) : LogFS α :=
  if new.isEmpty then fs
  else
    let existing := fs.main.getD []
    let combined := existing ++ new
    let data := if maxOpportunitiesInFile < combined.length
      then lastN maxOpportunitiesInFile combined else combined
    atomicRename (writeTemp fs data)

/-- Reading the opportunity log back: a missing file loads as no records
(real_simulator.py lines 223-229). -/
def loadLog {α : Type} (fs : LogFS α) : List α := fs.main.getD []

/-- A sequence of _save_opportunities calls over successive cycles. -/
def saveAll {α : Type} (batches : List (List α)) (fs : LogFS α) : LogFS α :=
  batches.foldl saveOpportunities fs

/-- The log before the first save: no file on disk. -/
def emptyLog {α : Type} : LogFS α := { main := none, temp := none }

/-! ## Association list and lookup lemmas -/

theorem lookup_isSome_iff {β : Type} (t : String) (l : List (String × β)) :
    (List.lookup t l).isSome ↔ t ∈ l.map Prod.fst := by
  induction l with
  | nil => simp [List.lookup]
  | cons hd tl ih =>
      rcases hd with ⟨k, v⟩
      by_cases h : t = k
      · subst h; simp [List.lookup]
      · rw [List.lookup, show (t == k) = false from beq_eq_false_iff_ne.mpr h]
        simp [h, ih]

theorem lookup_mem {β : Type} {t : String} {l : List (String × β)} {v : β}
    (h : List.lookup t l = some v) : (t, v) ∈ l := by
  induction l with
  | nil => simp [List.lookup] at h
  | cons hd tl ih =>
      rcases hd with ⟨k, w⟩
      by_cases hk : t = k
      · subst hk
        simp [List.lookup] at h
        subst h
        exact List.mem_cons_self _ _
      · rw [List.lookup, show (t == k) = false from beq_eq_false_iff_ne.mpr hk] at h
        exact List.mem_cons_of_mem _ (ih h)

/-! ## Detector lemmas -/

theorem validate_pos {prices : Snapshot} (hv : validate_price_data prices = true)
    {s : String} {a : ℚ} (ha : List.lookup s prices = some a) : 0 < a := by
  have hmem := lookup_mem ha
  unfold validate_price_data at hv
  rw [Bool.and_eq_true, List.all_eq_true] at hv
  exact of_decide_eq_true (hv.2 _ hmem)

theorem mem_commonTickers {p1 p2 : Snapshot} {s : String} :
    s ∈ commonTickers p1 p2 ↔
      (List.lookup s p1).isSome ∧ (List.lookup s p2).isSome := by
  unfold commonTickers
  rw [List.mem_dedup, List.mem_filter, lookup_isSome_iff]
  simp

theorem detect_eq_filterMap {p1 p2 : Snapshot} {t : ℚ}
    (hv1 : validate_price_data p1 = true) (hv2 : validate_price_data p2 = true)
    (ht : 0 < t) :
    detect_arbitrage p1 p2 t =
      (commonTickers p1 p2).filterMap (processTicker p1 p2 t) := by
  unfold detect_arbitrage
  rw [hv1, hv2]
  simp only [Bool.not_true, Bool.false_eq_true, if_false]
  rw [if_neg (not_le.mpr ht)]
  split
  · next h => rw [List.isEmpty_iff.mp h]; rfl
  · rfl

theorem detect_nil_of_invalid_left {p1 p2 : Snapshot} {t : ℚ}
    (h : validate_price_data p1 = false) : detect_arbitrage p1 p2 t = [] := by
  unfold detect_arbitrage
  rw [h]
  rfl

theorem detect_nil_of_invalid_right {p1 p2 : Snapshot} {t : ℚ}
    (h : validate_price_data p2 = false) : detect_arbitrage p1 p2 t = [] := by
  unfold detect_arbitrage
  rw [h]
  split <;> rfl

theorem detect_nil_of_nonpos_threshold (p1 p2 : Snapshot) {t : ℚ}
    (ht : t ≤ 0) : detect_arbitrage p1 p2 t = [] := by
  by_cases h1 : validate_price_data p1 = true
  · by_cases h2 : validate_price_data p2 = true
    · unfold detect_arbitrage
      rw [h1, h2]
      simp only [Bool.not_true, Bool.false_eq_true, if_false]
      rw [if_pos ht]
    · exact detect_nil_of_invalid_right (Bool.not_eq_true _ ▸ h2)
  · exact detect_nil_of_invalid_left (Bool.not_eq_true _ ▸ h1)

theorem processTicker_ticker {p1 p2 : Snapshot} {t : ℚ} {s : String}
    {o : Opportunity} (h : processTicker p1 p2 t s = some o) : o.ticker = s := by
  simp only [processTicker] at h
  split at h
  · exact absurd h (by simp)
  · split at h
    · cases h.symm
      rfl
    · exact absurd h (by simp)

theorem processTicker_isSome_iff {p1 p2 : Snapshot} {t : ℚ} {s : String} {a b : ℚ}
    (ha : List.lookup s p1 = some a) (hb : List.lookup s p2 = some b)
    (havg : (a + b) / 2 ≠ 0) :
    (processTicker p1 p2 t s).isSome ↔ t < |a - b| / ((a + b) / 2) := by
  simp only [processTicker, ha, hb, Option.getD_some]
  rw [if_neg havg]
  split
  · next h => simpa using h
  · next h => simpa using h

/-- An emitted opportunity with a given ticker exists exactly when that
ticker is common and its processTicker result is present. -/
theorem detect_mem_iff {p1 p2 : Snapshot} {t : ℚ} {s : String}
    (hv1 : validate_price_data p1 = true) (hv2 : validate_price_data p2 = true)
    (ht : 0 < t) :
    (∃ o ∈ detect_arbitrage p1 p2 t, o.ticker = s) ↔
      s ∈ commonTickers p1 p2 ∧ (processTicker p1 p2 t s).isSome := by
  rw [detect_eq_filterMap hv1 hv2 ht]
  constructor
  · rintro ⟨o, ho, hos⟩
    obtain ⟨x, hx, hfx⟩ := List.mem_filterMap.mp ho
    have hxs : x = s := by rw [← hos, processTicker_ticker hfx]
    subst hxs
    exact ⟨hx, by rw [hfx]; rfl⟩
  · rintro ⟨hmem, hsome⟩
    obtain ⟨o, ho⟩ := Option.isSome_iff_exists.mp hsome
    exact ⟨o, List.mem_filterMap.mpr ⟨s, hmem, ho⟩, processTicker_ticker ho⟩

/-- C1: for every pair of snapshots that pass validation (all prices
positive, non-empty) and every threshold t greater than 0, detect_arbitrage
emits an opportunity for a common symbol with prices a, b if and only if
the relative difference |a - b| / ((a + b) / 2) exceeds t; in particular
when the two prices are exactly equal, no opportunity is emitted for that
symbol. -/
theorem detect_arbitrage_emits_iff (p1 p2 : Snapshot) (t : ℚ) (s : String)
    (a b : ℚ)
    (hv1 : validate_price_data p1 = true) (hv2 : validate_price_data p2 = true)
    (ht : 0 < t)
    (ha : List.lookup s p1 = some a) (hb : List.lookup s p2 = some b) :
    ((∃ o ∈ detect_arbitrage p1 p2 t, o.ticker = s) ↔
      |a - b| / ((a + b) / 2) > t) ∧
    (a = b → ¬∃ o ∈ detect_arbitrage p1 p2 t, o.ticker = s) := by
  have hpa : 0 < a := validate_pos hv1 ha
  have hpb : 0 < b := validate_pos hv2 hb
  have havg : (a + b) / 2 ≠ 0 := by positivity
  have hmain : (∃ o ∈ detect_arbitrage p1 p2 t, o.ticker = s) ↔
      t < |a - b| / ((a + b) / 2) := by
    rw [detect_mem_iff hv1 hv2 ht,
        mem_commonTickers, processTicker_isSome_iff ha hb havg, ha, hb]
    simp
  refine ⟨hmain, fun hab hex => ?_⟩
  have := hmain.mp hex
  rw [hab] at this
  simp at this
  exact absurd this (not_lt.mpr ht.le)

/-- C1 witness: a concrete valid instance where the relative difference
2/101 exceeds the threshold 1/100 and an opportunity is emitted. -/
theorem detect_arbitrage_emits_iff_witness :
    ∃ o ∈ detect_arbitrage [("A", 100)] [("A", 102)] (1/100), o.ticker = "A" := by
  have h := (detect_arbitrage_emits_iff [("A", 100)] [("A", 102)] (1/100) "A"
    100 102 (by decide) (by decide) (by norm_num) rfl rfl).1
  exact h.mpr (by norm_num)

/-- C2 counterexample: the claim says every threshold above 1 yields an
empty result, but detect_arbitrage has no upper-bound check: with t = 3/2
and prices 1 and 100 the relative difference 99/50.5 exceeds 3/2 and an
opportunity is emitted. -/
theorem detect_arbitrage_threshold_above_one_emits :
    detect_arbitrage [("AAPL", 1)] [("AAPL", 100)] (3/2) ≠ [] := by decide

/-- C2 (amended): detect_arbitrage validates only that the threshold is
numeric and strictly positive; for every t at most 0 the call returns the
empty list rather than raising.  No upper bound is enforced. -/
theorem detect_arbitrage_invalid_threshold_empty (p1 p2 : Snapshot) (t : ℚ)
    (ht : t ≤ 0) : detect_arbitrage p1 p2 t = [] :=
  detect_nil_of_nonpos_threshold p1 p2 ht

/-- C2 witness: threshold 0 on a concrete pair returns the empty list. -/
theorem detect_arbitrage_invalid_threshold_empty_witness :
    detect_arbitrage [("A", 1)] [("A", 2)] 0 = [] :=
  detect_arbitrage_invalid_threshold_empty [("A", 1)] [("A", 2)] 0 (by norm_num)

/-- C3: if either input snapshot contains any symbol with a non-positive
price, detect_arbitrage returns the empty list for the whole call. -/
theorem detect_arbitrage_whole_snapshot_rejection (p1 p2 : Snapshot) (t : ℚ)
    (h : (∃ kv ∈ p1, kv.2 ≤ 0) ∨ ∃ kv ∈ p2, kv.2 ≤ 0) :
    detect_arbitrage p1 p2 t = [] := by
  have hinv : ∀ p : Snapshot, (∃ kv ∈ p, kv.2 ≤ 0) →
      validate_price_data p = false := by
    rintro p ⟨kv, hmem, hle⟩
    unfold validate_price_data
    rw [Bool.and_eq_false_iff]
    right
    rw [List.all_eq_false]
    exact ⟨kv, hmem, by simpa using not_lt.mpr hle⟩
  rcases h with h1 | h2
  · exact detect_nil_of_invalid_left (hinv p1 h1)
  · exact detect_nil_of_invalid_right (hinv p2 h2)

/-- C3 witness: a snapshot with one non-positive price among positive ones
yields the empty list, with no partial result for the other symbol. -/
theorem detect_arbitrage_whole_snapshot_rejection_witness :
    detect_arbitrage [("A", 50), ("B", -1)] [("A", 100), ("B", 2)] (1/100) = [] :=
  detect_arbitrage_whole_snapshot_rejection _ _ _
    (Or.inl ⟨("B", -1), by decide, by norm_num⟩)

/-- C9: on the concrete scenario snapshots with threshold 0.005,
detect_arbitrage returns exactly 2 opportunities; the AAPL record has
percentage difference within 0.001 of 0.995 and buys from Source 1 (the
lower price), the TSLA record has percentage difference within 0.001 of
0.502 and buys from Source 2 (the lower price). -/
theorem detect_arbitrage_scenario :
    (detect_arbitrage [("AAPL", 100), ("TSLA", 200)]
        [("AAPL", 101), ("TSLA", 199)] (5/1000)).length = 2 ∧
    (∀ o ∈ detect_arbitrage [("AAPL", 100), ("TSLA", 200)]
        [("AAPL", 101), ("TSLA", 199)] (5/1000),
      (o.ticker = "AAPL" →
        |o.difference_pct - 995/1000| ≤ 1/1000 ∧ o.buy_source = "Source 1") ∧
      (o.ticker = "TSLA" →
        |o.difference_pct - 502/1000| ≤ 1/1000 ∧ o.buy_source = "Source 2")) ∧
    (∃ o ∈ detect_arbitrage [("AAPL", 100), ("TSLA", 200)]
        [("AAPL", 101), ("TSLA", 199)] (5/1000), o.ticker = "AAPL") ∧
    (∃ o ∈ detect_arbitrage [("AAPL", 100), ("TSLA", 200)]
        [("AAPL", 101), ("TSLA", 199)] (5/1000), o.ticker = "TSLA") := by
  decide

/-! ## Swap symmetry (C4) -/

theorem commonTickers_nodup (p1 p2 : Snapshot) : (commonTickers p1 p2).Nodup := by
  unfold commonTickers
  exact List.nodup_dedup _

theorem commonTickers_perm (p1 p2 : Snapshot) :
    (commonTickers p2 p1).Perm (commonTickers p1 p2) := by
  rw [List.perm_ext_iff_of_nodup (commonTickers_nodup p2 p1)
    (commonTickers_nodup p1 p2)]
  intro s
  rw [mem_commonTickers, mem_commonTickers]
  exact and_comm

theorem processTicker_swap (p1 p2 : Snapshot) {t : ℚ} (ht : 0 < t) (s : String) :
    processTicker p2 p1 t s = (processTicker p1 p2 t s).map swapSourceView := by
  simp only [processTicker]
  set a := (List.lookup s p1).getD 0 with ha
  set b := (List.lookup s p2).getD 0 with hb
  have hcomm : (b + a) / 2 = (a + b) / 2 := by ring
  rw [hcomm, abs_sub_comm b a]
  by_cases havg : (a + b) / 2 = 0
  · rw [if_pos havg, if_pos havg]
    rfl
  · rw [if_neg havg, if_neg havg]
    by_cases hgt : |a - b| / ((a + b) / 2) > t
    · rw [if_pos hgt, if_pos hgt]
      have hne : a ≠ b := by
        intro h
        rw [h, sub_self, abs_zero, zero_div] at hgt
        exact absurd hgt (not_lt.mpr ht.le)
      rcases lt_or_gt_of_ne hne with hlt | hgt2
      · have h1 : ¬ b < a := not_lt.mpr hlt.le
        simp [swapSourceView, if_pos hlt, if_neg h1, min_comm b a, max_comm b a]
      · have h1 : ¬ a < b := not_lt.mpr hgt2.le
        simp [swapSourceView, if_pos hgt2, if_neg h1, min_comm b a, max_comm b a]
    · rw [if_neg hgt, if_neg hgt]
      rfl

/-- C4: swapping the two snapshot arguments of detect_arbitrage yields,
up to the unspecified set-iteration order, the same opportunities with
buy_source and sell_source swapped (and the two per-source price fields
swapped) while difference_abs, difference_pct, profit_margin and all other
fields are unchanged; the same set of symbols qualifies. -/
theorem detect_arbitrage_swap_symmetry (p1 p2 : Snapshot) (t : ℚ) :
    (detect_arbitrage p2 p1 t).Perm
      ((detect_arbitrage p1 p2 t).map swapSourceView) := by
  by_cases h1 : validate_price_data p1 = true
  · by_cases h2 : validate_price_data p2 = true
    · by_cases ht : 0 < t
      · rw [detect_eq_filterMap h2 h1 ht, detect_eq_filterMap h1 h2 ht]
        have hfun : processTicker p2 p1 t =
            fun s => (processTicker p1 p2 t s).map swapSourceView :=
          funext (processTicker_swap p1 p2 ht)
        rw [hfun, ← List.map_filterMap]
        exact ((commonTickers_perm p1 p2).filterMap _).map _
      · rw [detect_nil_of_nonpos_threshold p2 p1 (not_lt.mp ht),
            detect_nil_of_nonpos_threshold p1 p2 (not_lt.mp ht)]
        rfl
    · have h2f : validate_price_data p2 = false := Bool.not_eq_true _ ▸ h2
      rw [detect_nil_of_invalid_left h2f, detect_nil_of_invalid_right h2f]
      rfl
  · have h1f : validate_price_data p1 = false := Bool.not_eq_true _ ▸ h1
    rw [detect_nil_of_invalid_left h1f, detect_nil_of_invalid_right h1f]
    rfl

/-! ## RateLimiter theorems (C7) -/

/-- C7: acquire retains only call timestamps younger than 60 seconds; with
a full window of N = maxCalls timestamps, the next acquire sleeps for the
strictly positive duration 60 - (now - oldest), at most 60 seconds, and
records the call; with a non-full window it records the call with no wait;
and in every non-raising case the new state is the retained timestamps
followed by the new call. -/
theorem rateLimiter_acquire_window (maxCalls : ℕ) (calls : List ℚ) (now : ℚ)
    (hpos : 0 < maxCalls)
    (hwin : ∀ c ∈ calls, now - c < 60 ∧ c ≤ now) :
    (calls.length = maxCalls →
      ∃ w oldest, calls.min? = some oldest ∧
        RateLimiter.acquire maxCalls calls now = some (w, calls ++ [now]) ∧
        w = 60 - (now - oldest) ∧ 0 < w ∧ w ≤ 60) ∧
    (calls.length < maxCalls →
      RateLimiter.acquire maxCalls calls now = some (0, calls ++ [now])) ∧
    (∀ (cs : List ℚ) (w : ℚ) (rec2 : List ℚ),
      RateLimiter.acquire maxCalls cs now = some (w, rec2) →
      rec2 = (cs.filter fun c => decide (now - c < 60)) ++ [now]) := by
  have hretain : (calls.filter fun c => decide (now - c < 60)) = calls :=
    List.filter_eq_self.mpr fun c hc => decide_eq_true (hwin c hc).1
  refine ⟨?_, ?_, ?_⟩
  · intro hlen
    have hne : calls ≠ [] := by
      intro h
      rw [h] at hlen
      simp at hlen
      omega
    obtain ⟨oldest, holdest⟩ : ∃ o, calls.min? = some o := by
      cases hmin : calls.min? with
      | none => exact absurd (List.min?_eq_none_iff.mp hmin) hne
      | some o => exact ⟨o, rfl⟩
    have hmem : oldest ∈ calls := List.min?_mem min_choice holdest
    have hw : (0:ℚ) < 60 - (now - oldest) := by
      have := (hwin oldest hmem).1
      linarith
    have hw60 : 60 - (now - oldest) ≤ 60 := by
      have := (hwin oldest hmem).2
      linarith
    refine ⟨60 - (now - oldest), oldest, holdest, ?_, rfl, hw, hw60⟩
    simp only [RateLimiter.acquire, hretain, hlen, holdest]
    rw [if_pos le_rfl, if_pos hw]
  · intro hlt
    simp only [RateLimiter.acquire, hretain]
    rw [if_neg (not_le.mpr hlt)]
  · intro cs w rec2 h
    simp only [RateLimiter.acquire] at h
    split at h
    · cases hmin : (cs.filter fun c => decide (now - c < 60)).min? with
      | none => rw [hmin] at h; exact absurd h (by simp)
      | some o =>
          rw [hmin] at h
          simp only [Option.some_inj, Prod.mk.injEq] at h
          exact h.2.symm
    · simp only [Option.some_inj, Prod.mk.injEq] at h
      exact h.2.symm

/-- C7 witness: with a limit of 1 call per minute and one call recorded at
time 0, an acquire at time 30 sleeps 30 seconds and records the call. -/
theorem rateLimiter_acquire_window_witness :
    RateLimiter.acquire 1 [0] 30 = some (30, [0, 30]) := by
  have h := (rateLimiter_acquire_window 1 [0] 30 (by norm_num)
    (by intro c hc; simp at hc; subst hc; norm_num)).1 rfl
  obtain ⟨w, oldest, hmin, hacq, hw, _, _⟩ := h
  have ho : (0:ℚ) = oldest := by simpa using hmin
  subst ho
  have hw30 : w = 30 := by rw [hw]; norm_num
  rw [hw30] at hacq
  simpa using hacq

/-! ## Opportunity log theorems (C8) -/

theorem lastN_eq_reverse_take {α : Type} (n : ℕ) (l : List α) :
    lastN n l = (l.reverse.take n).reverse := by
  rw [List.take_reverse, List.reverse_reverse]
  rfl

theorem lastN_of_le {α : Type} {n : ℕ} {l : List α} (h : l.length ≤ n) :
    lastN n l = l := by
  unfold lastN
  rw [Nat.sub_eq_zero_of_le h, List.drop_zero]

theorem lastN_length_le {α : Type} (n : ℕ) (l : List α) :
    (lastN n l).length ≤ n := by
  unfold lastN
  rw [List.length_drop]
  omega

theorem take_append_take {α : Type} (n : ℕ) (x y : List α) :
    (x ++ y.take n).take n = (x ++ y).take n := by
  rw [List.take_append_eq_append_take, List.take_append_eq_append_take,
    List.take_take]
  congr 2
  exact Nat.min_eq_left (Nat.sub_le n x.length)

theorem lastN_append_lastN {α : Type} (n : ℕ) (a c : List α) :
    lastN n (lastN n a ++ c) = lastN n (a ++ c) := by
  rw [lastN_eq_reverse_take, lastN_eq_reverse_take, lastN_eq_reverse_take,
    List.reverse_append, List.reverse_append, List.reverse_reverse]
  congr 1
  exact take_append_take n c.reverse a.reverse

theorem saveOpportunities_loadLog {α : Type} (fs : LogFS α) (b : List α)
    (hlen : (loadLog fs).length ≤ maxOpportunitiesInFile) :
    loadLog (saveOpportunities fs b) =
      lastN maxOpportunitiesInFile (loadLog fs ++ b) := by
  unfold saveOpportunities
  split
  · next hb =>
      rw [List.isEmpty_iff.mp hb, List.append_nil]
      exact (lastN_of_le hlen).symm
  · simp only [atomicRename, writeTemp, loadLog, Option.getD_some]
    split
    · rfl
    · next hle => exact (lastN_of_le (not_lt.mp hle)).symm

theorem saveAll_loadLog {α : Type} (batches : List (List α)) (fs : LogFS α)
    (hlen : (loadLog fs).length ≤ maxOpportunitiesInFile) :
    loadLog (saveAll batches fs) =
      lastN maxOpportunitiesInFile (loadLog fs ++ batches.flatten) := by
  induction batches generalizing fs with
  | nil =>
      simp only [saveAll, List.foldl_nil, List.flatten_nil, List.append_nil]
      exact (lastN_of_le hlen).symm
  | cons b bs ih =>
      have hstep := saveOpportunities_loadLog fs b hlen
      have hlen2 : (loadLog (saveOpportunities fs b)).length ≤
          maxOpportunitiesInFile := by
        rw [hstep]
        exact lastN_length_le _ _
      calc loadLog (saveAll (b :: bs) fs)
          = loadLog (saveAll bs (saveOpportunities fs b)) := rfl
        _ = lastN maxOpportunitiesInFile
              (loadLog (saveOpportunities fs b) ++ bs.flatten) := ih _ hlen2
        _ = lastN maxOpportunitiesInFile
              (lastN maxOpportunitiesInFile (loadLog fs ++ b) ++ bs.flatten) := by
              rw [hstep]
        _ = lastN maxOpportunitiesInFile ((loadLog fs ++ b) ++ bs.flatten) :=
              lastN_append_lastN _ _ _
        _ = lastN maxOpportunitiesInFile (loadLog fs ++ (b :: bs).flatten) := by
              rw [List.flatten_cons, List.append_assoc]

/-- C8: saving a sequence of opportunity batches totalling M records and
reloading the log yields the same M records field-for-field when M is at
most the cap (10000); when M exceeds the cap the log holds exactly the most
recent cap-sized suffix; and the temp-file write step never touches the
committed log (the commit is the atomic rename). -/
theorem opportunity_log_roundtrip {α : Type} (batches : List (List α)) :
    (batches.flatten.length ≤ maxOpportunitiesInFile →
        loadLog (saveAll batches (emptyLog (α := α))) = batches.flatten) ∧
    (maxOpportunitiesInFile < batches.flatten.length →
        loadLog (saveAll batches (emptyLog (α := α))) =
          lastN maxOpportunitiesInFile batches.flatten) ∧
    (∀ (fs : LogFS α) (data : List α), (writeTemp fs data).main = fs.main) := by
  have hbase := saveAll_loadLog batches (emptyLog (α := α))
    (by simp [loadLog, emptyLog])
  have hempty : loadLog (emptyLog (α := α)) = [] := rfl
  rw [hempty, List.nil_append] at hbase
  refine ⟨fun hM => ?_, fun _ => hbase, fun fs data => rfl⟩
  rw [hbase]
  exact lastN_of_le hM

/-- C8 witness: two batches totalling 3 records reload as exactly those 3
records in order. -/
theorem opportunity_log_roundtrip_witness :
    loadLog (saveAll [[1, 2], [3]] (emptyLog (α := ℕ))) = [1, 2, 3] := by
  have h := (opportunity_log_roundtrip [[1, 2], [3]]).1 (by decide)
  simpa using h

/-! ## Portfolio metrics theorems (C10) -/

theorem round4_zero : round4 0 = 0 := by decide

/-- C10: calculate_portfolio_metrics filters opportunities by Python
truthiness of profit_margin, so a record with a missing margin or a margin
of exactly 0 is excluded from the average; a list whose margins are all
missing or 0 yields average_profit_margin 0 through the empty-filter
branch; the empty input yields the zeroed result (with the count key
absent) without error; and a 0 margin does not dilute the average of the
remaining margins (margins 0 and 4 average to 4, not 2). -/
theorem portfolio_metrics_margin_truthiness (opps : List OppRecord)
    (hall : ∀ o ∈ opps, o.profit_margin = none ∨ o.profit_margin = some 0) :
    (calculate_portfolio_metrics opps).average_profit_margin = 0 ∧
    calculate_portfolio_metrics ([] : List OppRecord) =
      ⟨0, 0, 0, none, none, none⟩ ∧
    (calculate_portfolio_metrics
      [⟨some 1, some 0, none⟩, ⟨some 2, some 4, none⟩]).average_profit_margin
      = 4 := by
  refine ⟨?_, by decide, by decide⟩
  have hfil : (opps.filter fun o => truthyQ o.profit_margin) = [] := by
    rw [List.filter_eq_nil_iff]
    intro o ho
    rcases hall o ho with h | h <;> simp [truthyQ, h]
  unfold calculate_portfolio_metrics
  split
  · rfl
  · simp only [hfil]
    simp [round4_zero]

/-- C10 witness: a single record with margin exactly 0 yields average
profit margin 0. -/
theorem portfolio_metrics_margin_truthiness_witness :
    (calculate_portfolio_metrics [⟨some 1, some 0, none⟩]).average_profit_margin
      = 0 :=
  (portfolio_metrics_margin_truthiness [⟨some 1, some 0, none⟩]
    (by intro o ho; simp at ho; subst ho; right; rfl)).1

/-! ## Stream state machine lemmas (C5, C6) -/

theorem lookup_alistSet_self {α : Type} (l : List (String × α)) (k : String)
    (v : α) : List.lookup k (alistSet l k v) = some v := by
  induction l with
  | nil => simp [alistSet, List.lookup]
  | cons hd tl ih =>
      rcases hd with ⟨k2, v2⟩
      by_cases h : k2 = k
      · subst h
        simp [alistSet, List.lookup]
      · rw [alistSet, if_neg h, List.lookup,
          show (k == k2) = false from beq_eq_false_iff_ne.mpr (Ne.symm h)]
        exact ih

theorem lookup_alistSet_ne {α : Type} (l : List (String × α)) {k x : String}
    (v : α) (hx : x ≠ k) :
    List.lookup x (alistSet l k v) = List.lookup x l := by
  induction l with
  | nil =>
      simp [alistSet, List.lookup,
        show (x == k) = false from beq_eq_false_iff_ne.mpr hx]
  | cons hd tl ih =>
      rcases hd with ⟨k2, v2⟩
      by_cases h : k2 = k
      · subst h
        rw [alistSet, if_pos rfl, List.lookup, List.lookup,
          show (x == k2) = false from beq_eq_false_iff_ne.mpr hx]
      · rw [alistSet, if_neg h, List.lookup, List.lookup]
        cases hxk2 : x == k2 with
        | true => rfl
        | false => exact ih

theorem processSource_self_fail (st : StreamState)
    {results : String → Option Snapshot} (acc : List (String × Snapshot))
    {name : String} (hf : failsFor results name = true) :
    List.lookup name (processSource st results acc name).2.1.errorCounts =
      some ((List.lookup name st.errorCounts).getD 0 + 1) ∧
    (processSource st results acc name).2.2 =
      decide (max_errors_per_broker ≤
        (List.lookup name st.errorCounts).getD 0 + 1) ∧
    (processSource st results acc name).2.1.apis =
      (if max_errors_per_broker ≤ (List.lookup name st.errorCounts).getD 0 + 1
        then st.apis.erase name else st.apis) := by
  unfold failsFor at hf
  cases hres : results name with
  | none =>
      simp only [processSource, hres, List.isEmpty_nil, if_true]
      by_cases hc : max_errors_per_broker ≤
          (List.lookup name st.errorCounts).getD 0 + 1
      · rw [if_pos hc, if_pos hc]
        exact ⟨lookup_alistSet_self _ _ _, by simp [hc], rfl⟩
      · rw [if_neg hc, if_neg hc]
        exact ⟨lookup_alistSet_self _ _ _, by simp [hc], rfl⟩
  | some prices =>
      simp only [hres] at hf
      simp only [processSource, hres, hf, if_true]
      by_cases hc : max_errors_per_broker ≤
          (List.lookup name st.errorCounts).getD 0 + 1
      · rw [if_pos hc, if_pos hc]
        exact ⟨lookup_alistSet_self _ _ _, by simp [hc], rfl⟩
      · rw [if_neg hc, if_neg hc]
        exact ⟨lookup_alistSet_self _ _ _, by simp [hc], rfl⟩

theorem processSource_self_succ (st : StreamState)
    {results : String → Option Snapshot} (acc : List (String × Snapshot))
    {name : String} (hf : failsFor results name = false) :
    List.lookup name (processSource st results acc name).2.1.errorCounts =
      some 0 ∧
    (processSource st results acc name).2.2 = false ∧
    (processSource st results acc name).2.1.apis = st.apis := by
  unfold failsFor at hf
  cases hres : results name with
  | none =>
      rw [hres] at hf
      exact absurd hf (by simp)
  | some prices =>
      simp only [hres] at hf
      simp [processSource, hres, hf, lookup_alistSet_self]

theorem processSource_other (st : StreamState)
    (results : String → Option Snapshot) (acc : List (String × Snapshot))
    {name x : String} (hx : x ≠ name) :
    List.lookup x (processSource st results acc name).2.1.errorCounts =
      List.lookup x st.errorCounts ∧
    (x ∈ (processSource st results acc name).2.1.apis ↔ x ∈ st.apis) := by
  simp only [processSource]
  split
  · split
    · exact ⟨lookup_alistSet_ne _ _ hx, List.mem_erase_of_ne hx⟩
    · exact ⟨lookup_alistSet_ne _ _ hx, Iff.rfl⟩
  · exact ⟨lookup_alistSet_ne _ _ hx, Iff.rfl⟩

theorem processSource_apis_subset (st : StreamState)
    (results : String → Option Snapshot) (acc : List (String × Snapshot))
    (name : String) :
    (processSource st results acc name).2.1.apis ⊆ st.apis := by
  simp only [processSource]
  split
  · split
    · exact List.erase_subset _ _
    · exact fun x hx => hx
  · exact fun x hx => hx

theorem processSource_apis_nodup (st : StreamState)
    (results : String → Option Snapshot) (acc : List (String × Snapshot))
    (name : String) (h : st.apis.Nodup) :
    (processSource st results acc name).2.1.apis.Nodup := by
  simp only [processSource]
  split
  · split
    · exact h.erase _
    · exact h
  · exact h

theorem pollLoop_apis_subset (results : String → Option Snapshot)
    (names : List String) :
    ∀ (st : StreamState) (acc : List (String × Snapshot)),
      (pollLoop results names st acc).2.apis ⊆ st.apis := by
  induction names with
  | nil => intro st acc; exact fun x hx => hx
  | cons n rest ih =>
      intro st acc
      rcases hp : processSource st results acc n with ⟨acc1, st1, popped⟩
      have h1 : st1.apis ⊆ st.apis := by
        have h := processSource_apis_subset st results acc n
        simp only [hp] at h
        exact h
      simp only [pollLoop, hp]
      cases popped
      · simpa using (ih st1 acc1).trans h1
      · simpa using h1

theorem pollLoop_preserve_other (results : String → Option Snapshot)
    (names : List String) :
    ∀ (st : StreamState) (acc : List (String × Snapshot)) (x : String),
      x ∉ names →
      List.lookup x (pollLoop results names st acc).2.errorCounts =
        List.lookup x st.errorCounts ∧
      (x ∈ (pollLoop results names st acc).2.apis ↔ x ∈ st.apis) := by
  induction names with
  | nil => intro st acc x _; exact ⟨rfl, Iff.rfl⟩
  | cons n rest ih =>
      intro st acc x hx
      have hxn : x ≠ n := fun h => hx (h ▸ List.mem_cons_self n rest)
      have hxrest : x ∉ rest := fun h => hx (List.mem_cons_of_mem _ h)
      rcases hp : processSource st results acc n with ⟨acc1, st1, popped⟩
      have hother := processSource_other st results acc hxn
      simp only [hp] at hother
      simp only [pollLoop, hp]
      cases popped
      · have hrest := ih st1 acc1 x hxrest
        refine ⟨?_, ?_⟩
        · simpa using hrest.1.trans hother.1
        · simpa using hrest.2.trans hother.2
      · exact ⟨by simpa using hother.1, by simpa using hother.2⟩

theorem pollLoop_name (results : String → Option Snapshot) (pre : List String) :
    ∀ (post : List String) (name : String) (st : StreamState)
      (acc : List (String × Snapshot)),
      (pre ++ name :: post).Nodup →
      name ∈ st.apis → st.apis.Nodup →
      (∀ m ∈ pre, popsNow st results m = false) →
      (failsFor results name = true →
        List.lookup name
            (pollLoop results (pre ++ name :: post) st acc).2.errorCounts =
          some ((List.lookup name st.errorCounts).getD 0 + 1) ∧
        (name ∈ (pollLoop results (pre ++ name :: post) st acc).2.apis ↔
          (List.lookup name st.errorCounts).getD 0 + 1 <
            max_errors_per_broker)) ∧
      (failsFor results name = false →
        List.lookup name
            (pollLoop results (pre ++ name :: post) st acc).2.errorCounts =
          some 0 ∧
        name ∈ (pollLoop results (pre ++ name :: post) st acc).2.apis) := by
  induction pre with
  | nil =>
      intro post name st acc hnd hmem hndapis _
      rw [List.nil_append] at hnd ⊢
      have hnpost : name ∉ post := (List.nodup_cons.mp hnd).1
      rcases hp : processSource st results acc name with ⟨acc1, st1, popped⟩
      constructor
      · intro hf
        have hself := processSource_self_fail st acc hf
        simp only [hp] at hself
        obtain ⟨hcnt, hpop, hapis⟩ := hself
        by_cases hc : max_errors_per_broker ≤
            (List.lookup name st.errorCounts).getD 0 + 1
        · have hptrue : popped = true := by rw [hpop]; simp [hc]
          subst hptrue
          simp only [pollLoop, hp, if_true]
          refine ⟨hcnt, ?_⟩
          rw [hapis, if_pos hc]
          constructor
          · intro hin
            exact absurd hin (hndapis.not_mem_erase)
          · intro hlt
            omega
        · have hpfalse : popped = false := by rw [hpop]; simp [hc]
          subst hpfalse
          simp only [pollLoop, hp, Bool.false_eq_true, if_false]
          have hpres := pollLoop_preserve_other results post st1 acc1 name hnpost
          refine ⟨hpres.1.trans hcnt, ?_⟩
          rw [hpres.2, hapis, if_neg hc]
          constructor
          · intro _
            omega
          · intro _
            exact hmem
      · intro hf
        have hself := processSource_self_succ st acc hf
        simp only [hp] at hself
        obtain ⟨hcnt, hpop, hapis⟩ := hself
        subst hpop
        simp only [pollLoop, hp, Bool.false_eq_true, if_false]
        have hpres := pollLoop_preserve_other results post st1 acc1 name hnpost
        exact ⟨hpres.1.trans hcnt, hpres.2.mpr (hapis ▸ hmem)⟩
  | cons m pre2 ih =>
      intro post name st acc hnd hmem hndapis hpre
      rw [List.cons_append] at hnd ⊢
      have hmrest : m ∉ pre2 ++ name :: post := (List.nodup_cons.mp hnd).1
      have hnd2 : (pre2 ++ name :: post).Nodup := (List.nodup_cons.mp hnd).2
      have hmname : m ≠ name := by
        intro h
        exact hmrest (h ▸ List.mem_append_right _ (List.mem_cons_self _ _))
      rcases hp : processSource st results acc m with ⟨acc1, st1, popped⟩
      have hmpops : popsNow st results m = false := hpre m (List.mem_cons_self _ _)
      have hpfalse : popped = false := by
        by_cases hf : failsFor results m = true
        · have hself := processSource_self_fail st acc hf
          simp only [hp] at hself
          rw [hself.2.1]
          unfold popsNow at hmpops
          rw [hf, Bool.true_and] at hmpops
          exact hmpops
        · have hself := processSource_self_succ st acc
            (Bool.not_eq_true _ ▸ hf)
          simp only [hp] at hself
          exact hself.2.1
      subst hpfalse
      have hother := processSource_other st results acc (Ne.symm hmname)
      simp only [hp] at hother
      have hmem1 : name ∈ st1.apis := hother.2.mpr hmem
      have hnd1 : st1.apis.Nodup := by
        have h := processSource_apis_nodup st results acc m hndapis
        simp only [hp] at h
        exact h
      have hpre1 : ∀ m2 ∈ pre2, popsNow st1 results m2 = false := by
        intro m2 hm2
        have hm2m : m2 ≠ m := by
          intro h
          exact hmrest (h ▸ List.mem_append_left _ hm2)
        have hoth2 := processSource_other st results acc hm2m
        simp only [hp] at hoth2
        have := hpre m2 (List.mem_cons_of_mem _ hm2)
        unfold popsNow at this ⊢
        rw [hoth2.1]
        exact this
      have hih := ih post name st1 acc1 hnd2 hmem1 hnd1 hpre1
      simp only [pollLoop, hp, Bool.false_eq_true, if_false]
      constructor
      · intro hf
        obtain ⟨hcnt, hiff⟩ := hih.1 hf
        rw [hother.1] at hcnt hiff
        exact ⟨hcnt, hiff⟩
      · exact hih.2

theorem getRealTimePrices_state (st : StreamState)
    (results : String → Option Snapshot) (sim : List (String × Snapshot))
    (hsim : st.simulationMode = false) :
    (getRealTimePrices st results sim).2 = (pollLoop results st.apis st []).2 := by
  simp only [getRealTimePrices, hsim, Bool.false_eq_true, if_false]
  rcases h : pollLoop results st.apis st [] with ⟨o, st1⟩
  cases o with
  | none => rfl
  | some acc =>
      simp only []
      split <;> rfl

/-- C5: per-source failure counting in get_real_time_prices follows the
state machine: a fetch that fails (error or no valid prices) for a source
reached by the loop increments that source's consecutive-failure count, a
successful fetch resets it to 0, the count reaching K = 5 removes the
source from the active API dict (the count stays below 5 exactly when the
source stays active), and a source absent from the dict is never
re-enabled by any call within the stream lifetime. -/
theorem source_failure_state_machine (st : StreamState)
    (results : String → Option Snapshot) (sim : List (String × Snapshot))
    (name : String) (pre post : List String)
    (hsim : st.simulationMode = false)
    (hapis : st.apis = pre ++ name :: post)
    (hnd : st.apis.Nodup)
    (hpre : ∀ m ∈ pre, popsNow st results m = false) :
    (failsFor results name = true →
        List.lookup name (getRealTimePrices st results sim).2.errorCounts =
          some ((List.lookup name st.errorCounts).getD 0 + 1)) ∧
    (failsFor results name = false →
        List.lookup name (getRealTimePrices st results sim).2.errorCounts =
          some 0 ∧
        name ∈ (getRealTimePrices st results sim).2.apis) ∧
    (failsFor results name = true →
        (name ∈ (getRealTimePrices st results sim).2.apis ↔
          (List.lookup name st.errorCounts).getD 0 + 1 <
            max_errors_per_broker)) ∧
    (∀ (st2 : StreamState) (results2 : String → Option Snapshot)
        (sim2 : List (String × Snapshot)) (x : String),
        x ∉ st2.apis → x ∉ (getRealTimePrices st2 results2 sim2).2.apis) := by
  have hmem : name ∈ st.apis := by
    rw [hapis]
    exact List.mem_append_right _ (List.mem_cons_self _ _)
  have hname := pollLoop_name results pre post name st []
    (hapis ▸ hnd) hmem hnd hpre
  rw [getRealTimePrices_state st results sim hsim, hapis]
  refine ⟨fun hf => (hname.1 hf).1, hname.2, fun hf => (hname.1 hf).2, ?_⟩
  intro st2 results2 sim2 x hx
  by_cases hs2 : st2.simulationMode = true
  · simp only [getRealTimePrices, hs2, if_true]
    exact hx
  · rw [getRealTimePrices_state st2 results2 sim2 (Bool.not_eq_true _ ▸ hs2)]
    intro hin
    exact hx (pollLoop_apis_subset results2 st2.apis st2 [] hin)

/-- C5 witness: one active source at failure count 4 whose fetch raises is
incremented to 5 and removed from the active API dict. -/
theorem source_failure_state_machine_witness :
    List.lookup "A" ((getRealTimePrices ⟨false, ["A"], [], [("A", 4)]⟩
      (fun _ => none) []).2).errorCounts = some 5 ∧
    "A" ∉ ((getRealTimePrices ⟨false, ["A"], [], [("A", 4)]⟩
      (fun _ => none) []).2).apis := by
  have h := source_failure_state_machine ⟨false, ["A"], [], [("A", 4)]⟩
    (fun _ => none) [] "A" [] [] rfl rfl (by decide) (by simp)
  constructor
  · have h1 := h.1 rfl
    rw [show (List.lookup "A" [("A", (4:ℕ))]).getD 0 + 1 = 5 from rfl] at h1
    exact h1
  · have h3 := h.2.2.1 rfl
    rw [show (List.lookup "A" [("A", (4:ℕ))]).getD 0 + 1 = 5 from rfl] at h3
    intro hin
    exact absurd (h3.mp hin) (by decide)

/-- C6: the specification says that when a source reaches K consecutive
failures the disabling is surfaced only as a status change and
get_real_time_prices still returns that cycle's price mapping.  The code
instead mutates self.apis during iteration of its items, which raises
RuntimeError at the next iterator advance: at this concrete input (source A
at failure count 4 fails while source B is still to be iterated) the call
raises instead of returning a mapping. -/
theorem get_real_time_prices_raises_on_disable :
    (getRealTimePrices ⟨false, ["A", "B"], [], [("A", 4)]⟩
      (fun n => if n = "A" then none else some [("AAPL", 100)]) []).1 =
      none := by
  decide

end StockArb
